import Mathlib

/-
Verification of the khuseraphdashboard synchronization engine, GPU status
parsing, batch-script generation and job cancellation logic.

The definitions below are shallow embeddings of the TypeScript source:
  - fileSyncManager.ts : calculateSyncActions, shouldExcludeFile,
    getLocalFiles, getRemoteFiles, getLocalFilesWithStats,
    getRemoteFilesWithStats, uploadFiles, downloadFiles, bidirectionalSync
  - gpuManager.ts (the variant with the placeholder fallback) : parseGPUStatus
  - jobManager.ts : generateScriptContent, cancelJob

External collaborators (the glob library, the minimatch library, the JS
regular-expression engine, the SFTP channel and the local filesystem) are
modelled as explicit function parameters or as explicit input data, since
they are third-party code, not code of this repository.  JS numbers that
only ever hold non-negative integers are modelled as Nat; the two places
where JS floating-point division feeds Math.round are modelled with exact
rationals and floor-based rounding.
-/

/-- Modification-time record of a remote SFTP listing item.  The modifyTime
field is optional because the SFTP item may carry no modification time, in
which case the TS code substitutes 0 via the expression
remoteStats.modifyTime || 0. -/
structure RemoteStat where
  modifyTime : Option Nat
deriving DecidableEq, Repr

/-- The two directions a computed sync action can have, from the string
union type upload | download in calculateSyncActions. -/
inductive ActionType where
  | upload
  | download
deriving DecidableEq, Repr

/-- One element of the action array returned by calculateSyncActions. -/
structure SyncAction where
  type : ActionType
  file : String
deriving DecidableEq, Repr

/-- Association-list lookup modelling JavaScript Map.get.  The maps built by
getLocalFilesWithStats and getRemoteFilesWithStats have unique keys, so
first-match lookup coincides with Map.get. -/
def lookupKey {β : Type} : List (String × β) → String → Option β
  | [], _ => none
  | (k, v) :: rest, key => if k = key then some v else lookupKey rest key

/-- Deduplication keeping first occurrences, modelling the JavaScript
expression new Set([...localFiles.keys(), ...remoteFiles.keys()]) which
iterates in insertion order with the first occurrence of each key kept. -/
def setOfKeys : List String → List String
  | [] => []
  | k :: rest => k :: (setOfKeys rest).filter (fun x => x != k)

/-- The per-file decision inside the loop of calculateSyncActions
(fileSyncManager.ts lines 340-362): present only locally means upload,
present only remotely means download, present in both compares the local
mtime against remoteStats.modifyTime || 0, equal times produce no action. -/
def calcAction (localFiles : List (String × Nat)) (remoteFiles : List (String × RemoteStat))
    (file : String) : Option SyncAction :=
  match lookupKey localFiles file, lookupKey remoteFiles file with
  | some _, none => some { type := ActionType.upload, file := file }
  | none, some _ => some { type := ActionType.download, file := file }
  | some localStats, some remoteStats =>
      let localTime := localStats
      let remoteTime := remoteStats.modifyTime.getD 0
      if localTime > remoteTime then some { type := ActionType.upload, file := file }
      else if remoteTime > localTime then some { type := ActionType.download, file := file }
      else none
  | none, none => none

/-- calculateSyncActions (fileSyncManager.ts lines 336-365): iterate the set
union of both key sets and collect the per-file decisions in order. -/
def calculateSyncActions (localFiles : List (String × Nat))
    (remoteFiles : List (String × RemoteStat)) : List SyncAction :=
  (setOfKeys (localFiles.map Prod.fst ++ remoteFiles.map Prod.fst)).filterMap
    (calcAction localFiles remoteFiles)

theorem mem_setOfKeys (k : String) : ∀ (ks : List String), k ∈ setOfKeys ks ↔ k ∈ ks := by
  intro ks
  induction ks with
  | nil => simp [setOfKeys]
  | cons a rest ih =>
      simp only [setOfKeys, List.mem_cons, List.mem_filter, ih, bne_iff_ne, ne_eq]
      by_cases h : k = a
      · simp [h]
      · simp [h]

theorem setOfKeys_of_nodup : ∀ (ks : List String), ks.Nodup → setOfKeys ks = ks := by
  intro ks
  induction ks with
  | nil => intro _; rfl
  | cons a rest ih =>
      intro hnd
      rcases List.nodup_cons.mp hnd with ⟨hna, hrest⟩
      have hfix : (setOfKeys rest).filter (fun x => x != a) = setOfKeys rest := by
        apply List.filter_eq_self.mpr
        intro x hx
        have hxr : x ∈ rest := (mem_setOfKeys x rest).mp hx
        have : x ≠ a := by
          intro hxa
          exact hna (hxa ▸ hxr)
        simpa [bne_iff_ne]
      simp only [setOfKeys, ih hrest, List.cons.injEq, true_and]
      apply List.filter_eq_self.mpr
      intro x hx
      have : x ≠ a := fun hxa => hna (hxa ▸ hx)
      simpa [bne_iff_ne]

theorem lookupKey_mem {β : Type} : ∀ {l : List (String × β)} {k : String} {b : β},
    lookupKey l k = some b → k ∈ l.map Prod.fst := by
  intro l
  induction l with
  | nil => intro k b h; simp [lookupKey] at h
  | cons p rest ih =>
      intro k b h
      by_cases hk : p.1 = k
      · simp [hk]
      · simp only [lookupKey] at h
        rw [if_neg hk] at h
        simp [ih h]

theorem lookupKey_some_of_mem {β : Type} : ∀ {l : List (String × β)} {k : String},
    k ∈ l.map Prod.fst → ∃ b, lookupKey l k = some b := by
  intro l
  induction l with
  | nil => intro k h; simp at h
  | cons p rest ih =>
      intro k h
      by_cases hk : p.1 = k
      · exact ⟨p.2, by simp [lookupKey, hk]⟩
      · have hr : k ∈ rest.map Prod.fst := by
          rcases List.mem_map.mp h with ⟨q, hq, hqk⟩
          rcases List.mem_cons.mp hq with hq1 | hq2
          · exact absurd (hq1 ▸ hqk) hk
          · exact List.mem_map.mpr ⟨q, hq2, hqk⟩
        rcases ih hr with ⟨b, hb⟩
        exact ⟨b, by simp [lookupKey, hk, hb]⟩

theorem lookupKey_none_of_not_mem {β : Type} : ∀ {l : List (String × β)} {k : String},
    k ∉ l.map Prod.fst → lookupKey l k = none := by
  intro l k h
  cases hl : lookupKey l k with
  | none => rfl
  | some b => exact absurd (lookupKey_mem hl) h

theorem calcAction_file {localFiles : List (String × Nat)}
    {remoteFiles : List (String × RemoteStat)} {k : String} {a : SyncAction}
    (h : calcAction localFiles remoteFiles k = some a) : a.file = k := by
  unfold calcAction at h
  cases hl : lookupKey localFiles k with
  | none =>
      cases hr : lookupKey remoteFiles k with
      | none => rw [hl, hr] at h; simp at h
      | some rs => rw [hl, hr] at h; simp at h; rw [← h]
  | some lt =>
      cases hr : lookupKey remoteFiles k with
      | none => rw [hl, hr] at h; simp at h; rw [← h]
      | some rs =>
          rw [hl, hr] at h
          simp only at h
          split_ifs at h with h1 h2
          · simp at h; rw [← h]
          · simp at h; rw [← h]

theorem mem_calculateSyncActions {localFiles : List (String × Nat)}
    {remoteFiles : List (String × RemoteStat)} {a : SyncAction} :
    a ∈ calculateSyncActions localFiles remoteFiles ↔
      ∃ k, k ∈ localFiles.map Prod.fst ++ remoteFiles.map Prod.fst ∧
        calcAction localFiles remoteFiles k = some a := by
  unfold calculateSyncActions
  rw [List.mem_filterMap]
  constructor
  · rintro ⟨k, hk, hsome⟩
    exact ⟨k, (mem_setOfKeys k _).mp hk, hsome⟩
  · rintro ⟨k, hk, hsome⟩
    exact ⟨k, (mem_setOfKeys k _).mpr hk, hsome⟩

theorem filterMap_eq_map_of_some {α β : Type} (f : α → Option β) (g : α → β) :
    ∀ (l : List α), (∀ x ∈ l, f x = some (g x)) → l.filterMap f = l.map g := by
  intro l
  induction l with
  | nil => intro _; rfl
  | cons a rest ih =>
      intro h
      rw [List.filterMap_cons, h a (by simp), List.map_cons,
        ih (fun x hx => h x (by simp [hx]))]

/-- C1: for a path present in both maps, Bidirectional sync computes an
Upload action exactly when the local modification time is strictly later
than the remote one, a Download action exactly when the remote time is
strictly later, and no action at all when the two are equal; consequently
two maps that agree everywhere produce an empty action list, so an
immediate second run with no intervening changes computes zero transfers. -/
theorem bidirectional_timestamp_direction
    (localFiles : List (String × Nat)) (remoteFiles : List (String × RemoteStat))
    (file : String) (localTime : Nat) (remoteStats : RemoteStat) (remoteTime : Nat)
    (hl : lookupKey localFiles file = some localTime)
    (hr : lookupKey remoteFiles file = some remoteStats)
    (hm : remoteStats.modifyTime = some remoteTime) :
    (SyncAction.mk ActionType.upload file ∈ calculateSyncActions localFiles remoteFiles
        ↔ remoteTime < localTime)
    ∧ (SyncAction.mk ActionType.download file ∈ calculateSyncActions localFiles remoteFiles
        ↔ localTime < remoteTime)
    ∧ (localTime = remoteTime →
        ∀ a ∈ calculateSyncActions localFiles remoteFiles, a.file ≠ file)
    ∧ (∀ (lf : List (String × Nat)) (rf : List (String × RemoteStat)),
        (∀ k t, lookupKey lf k = some t →
          ∃ rs, lookupKey rf k = some rs ∧ rs.modifyTime.getD 0 = t) →
        (∀ k rs, lookupKey rf k = some rs →
          ∃ t, lookupKey lf k = some t ∧ rs.modifyTime.getD 0 = t) →
        calculateSyncActions lf rf = []) := by
  have heval : calcAction localFiles remoteFiles file
      = if localTime > remoteTime then some (SyncAction.mk ActionType.upload file)
        else if remoteTime > localTime then some (SyncAction.mk ActionType.download file)
        else none := by
    simp [calcAction, hl, hr, hm]
  refine ⟨?c1, ?c2, ?c3, ?c4⟩
  case c1 =>
    constructor
    · intro hmem
      rcases mem_calculateSyncActions.mp hmem with ⟨k, _, hsome⟩
      have hk : k = file := by
        have := calcAction_file hsome
        simpa using this.symm
      subst hk
      rw [heval] at hsome
      split_ifs at hsome with h1 h2
      · exact h1
      · simp at hsome
    · intro hlt
      apply mem_calculateSyncActions.mpr
      refine ⟨file, List.mem_append.mpr (Or.inl (lookupKey_mem hl)), ?_⟩
      rw [heval]
      simp [hlt]
  case c2 =>
    constructor
    · intro hmem
      rcases mem_calculateSyncActions.mp hmem with ⟨k, _, hsome⟩
      have hk : k = file := by
        have := calcAction_file hsome
        simpa using this.symm
      subst hk
      rw [heval] at hsome
      split_ifs at hsome with h1 h2
      · simp at hsome
      · exact h2
    · intro hlt
      apply mem_calculateSyncActions.mpr
      refine ⟨file, List.mem_append.mpr (Or.inl (lookupKey_mem hl)), ?_⟩
      rw [heval]
      have hnot : ¬ localTime > remoteTime := by omega
      simp [hlt, hnot]
  case c3 =>
    intro heq a ha hfa
    rcases mem_calculateSyncActions.mp ha with ⟨k, _, hsome⟩
    have hk : k = file := by rw [← calcAction_file hsome, hfa]
    subst hk
    rw [heval, heq] at hsome
    simp at hsome
  case c4 =>
    intro lf rf h1 h2
    unfold calculateSyncActions
    apply List.filterMap_eq_nil_iff.mpr
    intro k hk
    have hk2 : k ∈ lf.map Prod.fst ++ rf.map Prod.fst := (mem_setOfKeys k _).mp hk
    rcases List.mem_append.mp hk2 with hkl | hkr
    · rcases lookupKey_some_of_mem hkl with ⟨t, ht⟩
      rcases h1 k t ht with ⟨rs, hrs, hrt⟩
      simp [calcAction, ht, hrs, hrt]
    · rcases lookupKey_some_of_mem hkr with ⟨rs, hrs⟩
      rcases h2 k rs hrs with ⟨t, ht, hrt⟩
      simp [calcAction, ht, hrs, hrt]

theorem bidirectional_timestamp_direction_witness :
    (3 < 5 ∧ SyncAction.mk ActionType.upload "a"
        ∈ calculateSyncActions [("a", 5)] [("a", RemoteStat.mk (some 3))]) :=
  ⟨by decide,
    (bidirectional_timestamp_direction [("a", 5)] [("a", RemoteStat.mk (some 3))]
      "a" 5 (RemoteStat.mk (some 3)) 3 (by decide) (by decide) rfl).1.mpr (by decide)⟩

/-- C2: for local and remote file sets with disjoint relative paths,
Bidirectional sync computes exactly one Upload action per local-only file,
exactly one Download action per remote-only file, and nothing else; in
particular no action for any path present in neither set. -/
theorem disjoint_sync_actions
    (localFiles : List (String × Nat)) (remoteFiles : List (String × RemoteStat))
    (hln : (localFiles.map Prod.fst).Nodup) (hrn : (remoteFiles.map Prod.fst).Nodup)
    (hdisj : ∀ k, k ∈ localFiles.map Prod.fst → k ∉ remoteFiles.map Prod.fst) :
    calculateSyncActions localFiles remoteFiles
      = localFiles.map (fun p => SyncAction.mk ActionType.upload p.1)
        ++ remoteFiles.map (fun p => SyncAction.mk ActionType.download p.1) := by
  unfold calculateSyncActions
  have hnd : (localFiles.map Prod.fst ++ remoteFiles.map Prod.fst).Nodup := by
    rw [List.nodup_append]
    exact ⟨hln, hrn, fun k hk hk2 => hdisj k hk hk2⟩
  rw [setOfKeys_of_nodup _ hnd, List.filterMap_append]
  have hup : (localFiles.map Prod.fst).filterMap (calcAction localFiles remoteFiles)
      = (localFiles.map Prod.fst).map (fun k => SyncAction.mk ActionType.upload k) := by
    apply filterMap_eq_map_of_some
    intro k hk
    rcases lookupKey_some_of_mem hk with ⟨t, ht⟩
    have hnone : lookupKey remoteFiles k = none :=
      lookupKey_none_of_not_mem (hdisj k hk)
    simp [calcAction, ht, hnone]
  have hdown : (remoteFiles.map Prod.fst).filterMap (calcAction localFiles remoteFiles)
      = (remoteFiles.map Prod.fst).map (fun k => SyncAction.mk ActionType.download k) := by
    apply filterMap_eq_map_of_some
    intro k hk
    rcases lookupKey_some_of_mem hk with ⟨rs, hrs⟩
    have hnone : lookupKey localFiles k = none :=
      lookupKey_none_of_not_mem (fun hmem => hdisj k hmem hk)
    simp [calcAction, hrs, hnone]
  rw [hup, hdown, List.map_map, List.map_map]
  rfl

theorem disjoint_sync_actions_witness :
    calculateSyncActions [("a", 1)] [("c", RemoteStat.mk (some 2))]
      = [SyncAction.mk ActionType.upload "a", SyncAction.mk ActionType.download "c"] := by
  rw [disjoint_sync_actions [("a", 1)] [("c", RemoteStat.mk (some 2))] (by decide) (by decide)
    (by
      intro k hk
      simp only [List.map_cons, List.map_nil, List.mem_singleton] at hk
      subst hk
      decide)]
  decide

/-- C10: for a path present in both trees whose remote record carries no
modification time, or modification time zero, the comparison substitutes 0
for the remote side, so the file gets an Upload action whenever the local
modification time is positive. -/
theorem missing_remote_mtime_forces_upload
    (localFiles : List (String × Nat)) (remoteFiles : List (String × RemoteStat))
    (file : String) (localTime : Nat) (remoteStats : RemoteStat)
    (hl : lookupKey localFiles file = some localTime)
    (hr : lookupKey remoteFiles file = some remoteStats)
    (hm : remoteStats.modifyTime = none ∨ remoteStats.modifyTime = some 0)
    (hpos : 0 < localTime) :
    SyncAction.mk ActionType.upload file ∈ calculateSyncActions localFiles remoteFiles := by
  have hget : remoteStats.modifyTime.getD 0 = 0 := by
    rcases hm with h | h <;> simp [h]
  apply mem_calculateSyncActions.mpr
  refine ⟨file, List.mem_append.mpr (Or.inl (lookupKey_mem hl)), ?_⟩
  simp [calcAction, hl, hr, hget, hpos]

theorem missing_remote_mtime_forces_upload_witness :
    SyncAction.mk ActionType.upload "f" ∈ calculateSyncActions [("f", 7)] [("f", RemoteStat.mk none)] :=
  missing_remote_mtime_forces_upload [("f", 7)] [("f", RemoteStat.mk none)]
    "f" 7 (RemoteStat.mk none) (by decide) (by decide) (Or.inl rfl) (by decide)

/-- The fixed built-in exclusion patterns (fileSyncManager.ts lines 32-46). -/
def defaultExcludePatterns : List String :=
  ["node_modules/**", ".git/**", "**/__pycache__/**", "**/*.pyc", "**/*.pyo",
   ".vscode/**", ".DS_Store", "Thumbs.db", "*.tmp", "*.temp",
   "**/.pytest_cache/**", "**/out/**", "**/dist/**"]

/-- shouldExcludeFile (fileSyncManager.ts lines 367-376): the file is
excluded when some pattern of the list matches its relative path.  The
third-party minimatch glob matcher is passed in as a function parameter. -/
def shouldExcludeFile (minimatch : String → String → Bool) (filePath : String)
    (excludePatterns : List String) : Bool :=
  excludePatterns.any (fun pattern => minimatch filePath pattern)

/-- getLocalFiles (fileSyncManager.ts lines 234-252): the third-party glob
enumeration of the local tree is passed in as the list allFiles; the
function keeps exactly the entries that no exclusion pattern matches. -/
def getLocalFiles (minimatch : String → String → Bool) (allFiles : List String)
    (excludePatterns : List String) : List String :=
  allFiles.filter (fun file => !shouldExcludeFile minimatch file excludePatterns)

/-- A remote directory listing as the SFTP channel reports it: a sequence of
entries, each either a file with its stat record or a directory with its own
listing.  A single inductive replaces the nested list-of-entries shape so
that structural recursion and induction stay simple. -/
inductive RemoteForest where
  | nil : RemoteForest
  | fileEntry (name : String) (stat : RemoteStat) (rest : RemoteForest) : RemoteForest
  | dirEntry (name : String) (entries : RemoteForest) (rest : RemoteForest) : RemoteForest
deriving DecidableEq, Repr

/-- path.posix.join of the accumulated relative path and an item name, with
the TS special case that an empty accumulated path yields the bare name. -/
def joinRel (relativePath name : String) : String :=
  if relativePath = "" then name else relativePath ++ "/" ++ name

/-- getRemoteFilesWithStats (fileSyncManager.ts lines 305-334): recursive
traversal of the remote listing; hidden entries are skipped unless
includeHidden is set, and a file is recorded with its stat only when no
exclusion pattern matches its relative path. -/
def getRemoteFilesWithStats (minimatch : String → String → Bool) (includeHidden : Bool)
    (excludePatterns : List String) (relativePath : String) :
    RemoteForest → List (String × RemoteStat)
  | RemoteForest.nil => []
  | RemoteForest.fileEntry name stat rest =>
      let relItem := joinRel relativePath name
      (if (includeHidden || !name.startsWith ".")
          && !shouldExcludeFile minimatch relItem excludePatterns
       then [(relItem, stat)] else [])
      ++ getRemoteFilesWithStats minimatch includeHidden excludePatterns relativePath rest
  | RemoteForest.dirEntry name entries rest =>
      (if includeHidden || !name.startsWith "." then
        getRemoteFilesWithStats minimatch includeHidden excludePatterns
          (joinRel relativePath name) entries
       else [])
      ++ getRemoteFilesWithStats minimatch includeHidden excludePatterns relativePath rest

/-- getRemoteFiles (fileSyncManager.ts lines 254-286): same traversal and
filters as getRemoteFilesWithStats, but collecting only the relative paths. -/
def getRemoteFiles (minimatch : String → String → Bool) (includeHidden : Bool)
    (excludePatterns : List String) (forest : RemoteForest) : List String :=
  (getRemoteFilesWithStats minimatch includeHidden excludePatterns "" forest).map Prod.fst

/-- getLocalFilesWithStats (fileSyncManager.ts lines 288-303): stat every
enumerated local file; files whose stat call fails are skipped with a
warning, which the Option-valued statSync parameter models. -/
def getLocalFilesWithStats (minimatch : String → String → Bool) (allFiles : List String)
    (excludePatterns : List String) (statSync : String → Option Nat) : List (String × Nat) :=
  (getLocalFiles minimatch allFiles excludePatterns).filterMap
    (fun file => (statSync file).map (fun t => (file, t)))

theorem getRemoteFilesWithStats_not_excluded
    (minimatch : String → String → Bool) (includeHidden : Bool)
    (excludePatterns : List String) :
    ∀ (forest : RemoteForest) (relativePath : String) (p : String × RemoteStat),
      p ∈ getRemoteFilesWithStats minimatch includeHidden excludePatterns relativePath forest →
      shouldExcludeFile minimatch p.1 excludePatterns = false := by
  intro forest
  induction forest with
  | nil => intro rel p hp; simp [getRemoteFilesWithStats] at hp
  | fileEntry name stat rest ih =>
      intro rel p hp
      simp only [getRemoteFilesWithStats, List.mem_append] at hp
      rcases hp with hp | hp
      · split_ifs at hp with hc
        · simp only [List.mem_singleton] at hp
          subst hp
          simp only [Bool.and_eq_true, Bool.not_eq_true'] at hc
          exact hc.2
        · simp at hp
      · exact ih rel p hp
  | dirEntry name entries rest ihEntries ihRest =>
      intro rel p hp
      simp only [getRemoteFilesWithStats, List.mem_append] at hp
      rcases hp with hp | hp
      · split_ifs at hp with hc
        · exact ihEntries (joinRel rel name) p hp
        · simp at hp
      · exact ihRest rel p hp

theorem getLocalFilesWithStats_key_mem
    (minimatch : String → String → Bool) (allFiles : List String)
    (excludePatterns : List String) (statSync : String → Option Nat) (k : String)
    (h : k ∈ (getLocalFilesWithStats minimatch allFiles excludePatterns statSync).map Prod.fst) :
    k ∈ getLocalFiles minimatch allFiles excludePatterns := by
  rcases List.mem_map.mp h with ⟨p, hp, hpk⟩
  rcases List.mem_filterMap.mp hp with ⟨file, hfile, hsome⟩
  cases hstat : statSync file with
  | none => rw [hstat] at hsome; simp at hsome
  | some t =>
      rw [hstat] at hsome
      have hpe : (file, t) = p := Option.some.inj hsome
      rw [← hpe] at hpk
      simp only at hpk
      rw [← hpk]
      exact hfile

/-- C3: in every sync mode, a file whose relative path matches at least one
pattern of the effective exclusion set, the built-in patterns unioned with
user-supplied ones, never appears in the enumerated transfer list of the
one-directional modes nor in the computed action list of Bidirectional
mode, even when the file exists on only one side. -/
theorem excluded_files_never_synced
    (minimatch : String → String → Bool) (userPatterns : List String) (f : String)
    (hex : shouldExcludeFile minimatch f (defaultExcludePatterns ++ userPatterns) = true) :
    (∀ allFiles : List String,
      f ∉ getLocalFiles minimatch allFiles (defaultExcludePatterns ++ userPatterns))
    ∧ (∀ (includeHidden : Bool) (forest : RemoteForest),
      f ∉ getRemoteFiles minimatch includeHidden (defaultExcludePatterns ++ userPatterns) forest)
    ∧ (∀ (allFiles : List String) (statSync : String → Option Nat)
        (includeHidden : Bool) (forest : RemoteForest),
      ∀ a ∈ calculateSyncActions
          (getLocalFilesWithStats minimatch allFiles (defaultExcludePatterns ++ userPatterns) statSync)
          (getRemoteFilesWithStats minimatch includeHidden (defaultExcludePatterns ++ userPatterns) "" forest),
        a.file ≠ f) := by
  refine ⟨?loc, ?rem, ?bidir⟩
  case loc =>
    intro allFiles hmem
    rcases List.mem_filter.mp hmem with ⟨_, hkeep⟩
    rw [hex] at hkeep
    simp at hkeep
  case rem =>
    intro includeHidden forest hmem
    rcases List.mem_map.mp hmem with ⟨p, hp, hpk⟩
    have := getRemoteFilesWithStats_not_excluded minimatch includeHidden _ forest "" p hp
    rw [hpk, hex] at this
    simp at this
  case bidir =>
    intro allFiles statSync includeHidden forest a ha hfa
    rcases mem_calculateSyncActions.mp ha with ⟨k, hk, hsome⟩
    have hkf : k = f := by rw [← calcAction_file hsome, hfa]
    subst hkf
    rcases List.mem_append.mp hk with hkl | hkr
    · have hmem := getLocalFilesWithStats_key_mem minimatch allFiles _ statSync k hkl
      rcases List.mem_filter.mp hmem with ⟨_, hkeep⟩
      rw [hex] at hkeep
      simp at hkeep
    · rcases List.mem_map.mp hkr with ⟨p, hp, hpk⟩
      have := getRemoteFilesWithStats_not_excluded minimatch includeHidden _ forest "" p hp
      rw [hpk, hex] at this
      simp at this

theorem excluded_files_never_synced_witness :
    ".DS_Store" ∉ getLocalFiles (fun p pat => p == pat) [".DS_Store", "a.py"]
      (defaultExcludePatterns ++ []) :=
  (excluded_files_never_synced (fun p pat => p == pat) [] ".DS_Store" (by decide)).1
    [".DS_Store", "a.py"]

/-- JavaScript Math.round on a non-negative value: floor of the value plus
one half.  Modelled over exact rationals. -/
def jsRound (q : ℚ) : Int := ⌊q + 1 / 2⌋

/-- The payload fired on the onSyncProgress emitter (SyncProgress interface,
fileSyncManager.ts lines 20-25). -/
structure ProgressEvent where
  current : Nat
  total : Nat
  currentFile : String
  percentage : Int
deriving DecidableEq, Repr

/-- The progress payload built before each transfer: current is the
one-based index, total the action count, and percentage is
Math.round of current divided by total, times one hundred. -/
def mkEvent (current total : Nat) (file : String) : ProgressEvent :=
  { current := current
    total := total
    currentFile := file
    percentage := jsRound ((current : ℚ) / (total : ℚ) * 100) }

/-- Which SFTP primitive a transfer uses: put uploads, get downloads. -/
inductive TransferKind where
  | put
  | get
deriving DecidableEq, Repr

/-- One file transfer, identified by its relative path. -/
structure TransferOp where
  kind : TransferKind
  file : String
deriving DecidableEq, Repr

/-- One observable step of a sync run: either a fired progress event or a
performed transfer. -/
inductive Step where
  | progress (e : ProgressEvent) : Step
  | transfer (op : TransferOp) : Step
deriving DecidableEq, Repr

/-- The shared per-file loop of uploadFiles, downloadFiles and
bidirectionalSync: fire the progress event, then attempt the transfer.  The
channel outcome is the res parameter: none is success, some err is a raised
error with text err.  On an error the loop aborts immediately, returning
the trace so far and the failing operation; no executed transfer is undone. -/
def execTrace (res : TransferOp → Option String) (total : Nat) :
    Nat → List TransferOp → List Step × Option (TransferOp × String)
  | _, [] => ([], none)
  | i, op :: rest =>
      match res op with
      | none =>
          let r := execTrace res total (i + 1) rest
          (Step.progress (mkEvent (i + 1) total op.file) :: Step.transfer op :: r.1, r.2)
      | some err => ([Step.progress (mkEvent (i + 1) total op.file)], some (op, err))

/-- A whole run over an action list: the total passed to every progress
event is the length of the list, fixed before the loop starts. -/
def runSync (res : TransferOp → Option String) (actions : List TransferOp) :
    List Step × Option (TransferOp × String) :=
  execTrace res actions.length 0 actions

/-- The fully successful trace shape: each transfer directly preceded by
its progress event, indices counted from i, total held constant. -/
def interleave (total i : Nat) : List TransferOp → List Step
  | [] => []
  | op :: rest =>
      Step.progress (mkEvent (i + 1) total op.file) :: Step.transfer op
        :: interleave total (i + 1) rest

/-- The transfers actually performed during a trace, in order. -/
def traceTransfers (steps : List Step) : List TransferOp :=
  steps.filterMap (fun s =>
    match s with
    | Step.transfer op => some op
    | Step.progress _ => none)

/-- The progress events fired during a trace, in order. -/
def traceEvents (steps : List Step) : List ProgressEvent :=
  steps.filterMap (fun s =>
    match s with
    | Step.progress e => some e
    | Step.transfer _ => none)

/-- syncFiles catches any error thrown by a mode handler and shows it as a
visible message prefixed with Sync failed (fileSyncManager.ts line 94). -/
def syncFailureMessage (r : List Step × Option (TransferOp × String)) : Option String :=
  r.2.map (fun p => "Sync failed: " ++ p.2)

/-- uploadFiles (fileSyncManager.ts lines 142-167): enumerate the local
tree, then put every enumerated file in order.  The destination tree is
never consulted. -/
def uploadFiles (res : TransferOp → Option String) (minimatch : String → String → Bool)
    (allFiles : List String) (excludePatterns : List String) :
    List Step × Option (TransferOp × String) :=
  runSync res ((getLocalFiles minimatch allFiles excludePatterns).map
    (fun f => TransferOp.mk TransferKind.put f))

/-- downloadFiles (fileSyncManager.ts lines 169-193): enumerate the remote
tree, then get every enumerated file in order.  The destination tree is
never consulted. -/
def downloadFiles (res : TransferOp → Option String) (minimatch : String → String → Bool)
    (includeHidden : Bool) (excludePatterns : List String) (forest : RemoteForest) :
    List Step × Option (TransferOp × String) :=
  runSync res ((getRemoteFiles minimatch includeHidden excludePatterns forest).map
    (fun f => TransferOp.mk TransferKind.get f))

/-- The switch of bidirectionalSync: an upload action performs a put, a
download action performs a get. -/
def opOfAction (a : SyncAction) : TransferOp :=
  match a.type with
  | ActionType.upload => TransferOp.mk TransferKind.put a.file
  | ActionType.download => TransferOp.mk TransferKind.get a.file

/-- bidirectionalSync (fileSyncManager.ts lines 195-232): compute the action
list once, then execute it with the shared per-file loop. -/
def bidirectionalSync (res : TransferOp → Option String)
    (localFiles : List (String × Nat)) (remoteFiles : List (String × RemoteStat)) :
    List Step × Option (TransferOp × String) :=
  runSync res ((calculateSyncActions localFiles remoteFiles).map opOfAction)

theorem execTrace_ok (res : TransferOp → Option String) (total : Nat) :
    ∀ (ops : List TransferOp) (i : Nat), (∀ op ∈ ops, res op = none) →
    execTrace res total i ops = (interleave total i ops, none) := by
  intro ops
  induction ops with
  | nil => intro i _; rfl
  | cons op rest ih =>
      intro i h
      have hop : res op = none := h op (by simp)
      simp only [execTrace, hop, interleave]
      rw [ih (i + 1) (fun o ho => h o (by simp [ho]))]

theorem traceTransfers_interleave :
    ∀ (ops : List TransferOp) (total i : Nat), traceTransfers (interleave total i ops) = ops := by
  intro ops
  induction ops with
  | nil => intro total i; rfl
  | cons op rest ih =>
      intro total i
      simp only [interleave, traceTransfers, List.filterMap_cons]
      have := ih total (i + 1)
      simp only [traceTransfers] at this
      rw [this]

theorem execTrace_fail (res : TransferOp → Option String) (total : Nat)
    (op : TransferOp) (err : String) (hop : res op = some err) :
    ∀ (pre : List TransferOp) (post : List TransferOp) (i : Nat),
      (∀ o ∈ pre, res o = none) →
      execTrace res total i (pre ++ op :: post)
        = (interleave total i pre
            ++ [Step.progress (mkEvent (i + pre.length + 1) total op.file)],
           some (op, err)) := by
  intro pre
  induction pre with
  | nil =>
      intro post i _
      simp [execTrace, hop, interleave]
  | cons p rest ih =>
      intro post i h
      have hp : res p = none := h p (by simp)
      simp only [List.cons_append, execTrace, hp, interleave]
      simp only [List.append_eq]
      rw [ih post (i + 1) (fun o ho => h o (by simp [ho]))]
      simp only [List.length_cons]
      have harith : i + 1 + rest.length + 1 = i + (rest.length + 1) + 1 := by omega
      rw [harith]

theorem traceEvents_total (res : TransferOp → Option String) (total : Nat) :
    ∀ (ops : List TransferOp) (i : Nat),
      ∀ e ∈ traceEvents (execTrace res total i ops).1, e.total = total := by
  intro ops
  induction ops with
  | nil => intro i e he; simp [execTrace, traceEvents] at he
  | cons op rest ih =>
      intro i e he
      cases hop : res op with
      | none =>
          simp only [execTrace, hop, traceEvents, List.filterMap_cons] at he
          simp only [List.mem_cons] at he
          rcases he with he | he
          · rw [he]
            rfl
          · exact ih (i + 1) e (by simpa [traceEvents] using he)
      | some err =>
          simp only [execTrace, hop, traceEvents, List.filterMap_cons, List.filterMap_nil] at he
          simp only [List.mem_singleton] at he
          rw [he]
          rfl

theorem traceTransfers_append (a b : List Step) :
    traceTransfers (a ++ b) = traceTransfers a ++ traceTransfers b :=
  List.filterMap_append a b _

/-- C5: Upload-only mode transfers exactly the non-excluded files enumerated
from the local tree, and Download-only mode exactly those enumerated from
the remote tree, one put or get per enumerated file in order; neither
definition consults the destination tree at all, so re-running a mode
against an unchanged source performs the same transfers every run. -/
theorem one_directional_modes_no_diffing
    (res : TransferOp → Option String) (minimatch : String → String → Bool)
    (allFiles : List String) (excludePatterns : List String)
    (includeHidden : Bool) (forest : RemoteForest)
    (hok : ∀ op, res op = none) :
    traceTransfers (uploadFiles res minimatch allFiles excludePatterns).1
      = (getLocalFiles minimatch allFiles excludePatterns).map
          (fun f => TransferOp.mk TransferKind.put f)
    ∧ (uploadFiles res minimatch allFiles excludePatterns).2 = none
    ∧ traceTransfers (downloadFiles res minimatch includeHidden excludePatterns forest).1
      = (getRemoteFiles minimatch includeHidden excludePatterns forest).map
          (fun f => TransferOp.mk TransferKind.get f)
    ∧ (downloadFiles res minimatch includeHidden excludePatterns forest).2 = none := by
  have hup := execTrace_ok res
    ((getLocalFiles minimatch allFiles excludePatterns).map
      (fun f => TransferOp.mk TransferKind.put f)).length
    ((getLocalFiles minimatch allFiles excludePatterns).map
      (fun f => TransferOp.mk TransferKind.put f)) 0 (fun op _ => hok op)
  have hdown := execTrace_ok res
    ((getRemoteFiles minimatch includeHidden excludePatterns forest).map
      (fun f => TransferOp.mk TransferKind.get f)).length
    ((getRemoteFiles minimatch includeHidden excludePatterns forest).map
      (fun f => TransferOp.mk TransferKind.get f)) 0 (fun op _ => hok op)
  refine ⟨?_, ?_, ?_, ?_⟩
  · unfold uploadFiles runSync
    rw [hup]
    exact traceTransfers_interleave _ _ _
  · unfold uploadFiles runSync
    rw [hup]
  · unfold downloadFiles runSync
    rw [hdown]
    exact traceTransfers_interleave _ _ _
  · unfold downloadFiles runSync
    rw [hdown]

theorem one_directional_modes_no_diffing_witness :
    traceTransfers (uploadFiles (fun _ => none) (fun p pat => p == pat)
        ["a.py", ".DS_Store"] (defaultExcludePatterns ++ [])).1
      = [TransferOp.mk TransferKind.put "a.py"] := by
  rw [(one_directional_modes_no_diffing (fun _ => none) (fun p pat => p == pat)
      ["a.py", ".DS_Store"] (defaultExcludePatterns ++ []) false RemoteForest.nil
      (fun _ => rfl)).1]
  decide

/-- C6: when a transfer fails, the run aborts at that action: no action
after the failing one is executed, every transfer completed before it
remains performed (no rollback), and the whole operation is reported with
the channel error text behind the fixed Sync failed prefix. -/
theorem sync_aborts_on_first_failure
    (res : TransferOp → Option String) (actions : List TransferOp)
    (j : Nat) (err : String) (hj : j < actions.length)
    (hfail : res (actions.get ⟨j, hj⟩) = some err)
    (hok : ∀ op ∈ actions.take j, res op = none) :
    (runSync res actions).2 = some (actions.get ⟨j, hj⟩, err)
    ∧ traceTransfers (runSync res actions).1 = actions.take j
    ∧ syncFailureMessage (runSync res actions) = some ("Sync failed: " ++ err) := by
  have hsplit : actions = actions.take j ++ actions.get ⟨j, hj⟩ :: actions.drop (j + 1) := by
    rw [List.get_eq_getElem, ← List.drop_eq_getElem_cons hj, List.take_append_drop]
  have hfail2 := execTrace_fail res actions.length (actions.get ⟨j, hj⟩) err hfail
    (actions.take j) (actions.drop (j + 1)) 0 hok
  rw [← hsplit] at hfail2
  refine ⟨?_, ?_, ?_⟩
  · unfold runSync
    rw [hfail2]
  · unfold runSync
    rw [hfail2]
    simp only [traceTransfers_append, traceTransfers_interleave]
    simp [traceTransfers]
  · unfold syncFailureMessage runSync
    rw [hfail2]
    rfl

theorem sync_aborts_on_first_failure_witness :
    (runSync (fun op => if op.file == "b" then some "boom" else none)
      [TransferOp.mk TransferKind.put "a", TransferOp.mk TransferKind.put "b",
       TransferOp.mk TransferKind.put "c"]).2
    = some (TransferOp.mk TransferKind.put "b", "boom") := by
  rw [(sync_aborts_on_first_failure (fun op => if op.file == "b" then some "boom" else none)
    [TransferOp.mk TransferKind.put "a", TransferOp.mk TransferKind.put "b",
     TransferOp.mk TransferKind.put "c"] 1 "boom" (by decide) (by decide) (by decide)).1]
  decide

/-- C7: in a successful run the trace is exactly the interleaving that fires,
immediately before each transfer, the progress event whose current field is
the one-based action index, whose total field is the action count fixed at
the start of the run, and whose percentage is computed from that index
against the fixed total; moreover every event fired in any run, aborted
runs included, carries that same fixed total, so the total never shrinks or
grows mid-run. -/
theorem progress_event_before_each_transfer
    (res : TransferOp → Option String) (actions : List TransferOp) :
    ((∀ op ∈ actions, res op = none) →
      (runSync res actions).1 = interleave actions.length 0 actions)
    ∧ (∀ e ∈ traceEvents (runSync res actions).1, e.total = actions.length) := by
  constructor
  · intro h
    unfold runSync
    rw [execTrace_ok res actions.length actions 0 h]
  · intro e he
    exact traceEvents_total res actions.length actions 0 e he

theorem progress_event_before_each_transfer_witness :
    (runSync (fun _ => none)
      [TransferOp.mk TransferKind.put "a", TransferOp.mk TransferKind.get "b"]).1
    = interleave 2 0 [TransferOp.mk TransferKind.put "a", TransferOp.mk TransferKind.get "b"] :=
  (progress_event_before_each_transfer (fun _ => none)
    [TransferOp.mk TransferKind.put "a", TransferOp.mk TransferKind.get "b"]).1
    (fun _ _ => rfl)

/-- One GPU node record (GPUNode interface of gpuManager.ts).  The optional
cpuUsage and memoryUsage percentages are always filled by the matching
branch and by the fallback of this parser variant. -/
structure GPUNode where
  name : String
  gpuStatus : List String
  cpuUsage : Option Nat
  memoryUsage : Option Nat
  availableGPUs : Nat
  totalGPUs : Nat
deriving DecidableEq, Repr

/-- The capture groups of the per-node line pattern of parseGPUStatus: node
name, used and total GPU slots, the bracketed per-slot string, used and
total CPU count, used memory, and the total memory in GiB which the code
reads with parseFloat and which is therefore modelled as a rational.  The
JS regular-expression engine that produces these groups is third-party, so
the matcher is a function parameter of the parser. -/
structure NodeGroups where
  name : String
  usedGPUs : Nat
  totalGPUs : Nat
  gpuString : String
  usedCPU : Nat
  totalCPU : Nat
  usedMEM : Nat
  totalMEM : ℚ

/-- The matchAll scan for bracketed single characters inside the per-slot
string.  Input lines never contain a newline because the text was split on
newlines first, so the JS dot behaves as any-character here. -/
def extractBrackets : List Char → List Char
  | '[' :: c :: ']' :: rest => c :: extractBrackets rest
  | _ :: rest => extractBrackets rest
  | [] => []

/-- The matched branch of parseGPUStatus: slot states from the bracketed
string, available count as total minus used, and the two usage percentages
rounded from the used over total ratios. -/
def nodeFromGroups (g : NodeGroups) : GPUNode :=
  { name := g.name
    gpuStatus := (extractBrackets g.gpuString.toList).map (fun c => String.mk [c])
    cpuUsage := some (jsRound ((g.usedCPU : ℚ) / (g.totalCPU : ℚ) * 100)).toNat
    memoryUsage := some (jsRound ((g.usedMEM : ℚ) / g.totalMEM * 100)).toNat
    availableGPUs := g.totalGPUs - g.usedGPUs
    totalGPUs := g.totalGPUs }

/-- The fallback node set of parseGPUStatus: aurora-g1 through aurora-g8,
eight slots each, every slot free, zero usage. -/
def fallbackNodes : List GPUNode :=
  (List.range 8).map (fun i =>
    { name := "aurora-g" ++ toString (i + 1)
      gpuStatus := ["-", "-", "-", "-", "-", "-", "-", "-"]
      cpuUsage := some 0
      memoryUsage := some 0
      availableGPUs := 8
      totalGPUs := 8 })

/-- parseGPUStatus of the gpuManager variant with the placeholder fallback:
split the output into non-blank lines, collect a node per line the pattern
matches, and when no line matched at all return the fixed fallback node set
instead of an empty list.  The function is total, so unparseable output can
never raise.  The lastUpdated wall-clock field of the TS GPUStatus record
is outside the model. -/
def parseGPUStatus (matchNode : String → Option NodeGroups) (output : String) : List GPUNode :=
  let lines := (output.splitOn "\n").filter (fun line => !line.trim.isEmpty)
  let nodes := lines.filterMap (fun line => (matchNode line.trim).map nodeFromGroups)
  if nodes.isEmpty then fallbackNodes else nodes

/-- C4: whenever the per-node line pattern matches zero lines of the status
text, the parser returns the fixed placeholder node set aurora-g1 through
aurora-g8 with every GPU slot marked free, rather than an empty node list;
being a total function of its input, it never throws. -/
theorem gpu_parser_placeholder_fallback
    (matchNode : String → Option NodeGroups) (output : String)
    (h : ∀ line ∈ output.splitOn "\n", matchNode line.trim = none) :
    parseGPUStatus matchNode output = fallbackNodes
    ∧ ∀ node ∈ parseGPUStatus matchNode output,
        node.availableGPUs = node.totalGPUs ∧ ∀ s ∈ node.gpuStatus, s = "-" := by
  have hnil : ((output.splitOn "\n").filter (fun line => !line.trim.isEmpty)).filterMap
      (fun line => (matchNode line.trim).map nodeFromGroups) = [] := by
    apply List.filterMap_eq_nil_iff.mpr
    intro line hline
    rw [h line (List.mem_filter.mp hline).1]
    rfl
  have heq : parseGPUStatus matchNode output = fallbackNodes := by
    simp only [parseGPUStatus]
    rw [hnil]
    rfl
  refine ⟨heq, ?_⟩
  rw [heq]
  decide

theorem gpu_parser_placeholder_fallback_witness :
    parseGPUStatus (fun _ => none) "unexpected output" = fallbackNodes :=
  (gpu_parser_placeholder_fallback (fun _ => none) "unexpected output"
    (fun _ _ => rfl)).1

/-- JobConfig (jobManager.ts lines 6-17).  gpuNode, outputPath and errorPath
are optional in the interface; memoryPerGpu is a string such as 32G that
the template reads with parseInt. -/
structure JobConfig where
  name : String
  gpuCount : Nat
  gpuNode : Option String
  cpuPerGpu : Nat
  memoryPerGpu : String
  partition : String
  timeLimit : String
  scriptPath : String
  outputPath : Option String
  errorPath : Option String
deriving DecidableEq, Repr

/-- Decimal value of a digit sequence, most significant first. -/
def digitsToNat (cs : List Char) : Nat :=
  cs.foldl (fun acc c => acc * 10 + (c.toNat - 48)) 0

/-- JavaScript parseInt on the decimal-digit prefix of a string: none models
the NaN result produced when the string starts with no digit. -/
def jsParseIntNat (s : String) : Option Nat :=
  let digits := s.toList.takeWhile Char.isDigit
  if digits.isEmpty then none else some (digitsToNat digits)

/-- How the template literal renders parseInt of the memory string times the
GPU count: a number, or the text NaN when nothing parsed. -/
def renderMemTimes (memoryPerGpu : String) (gpuCount : Nat) : String :=
  match jsParseIntNat memoryPerGpu with
  | some n => toString (n * gpuCount)
  | none => "NaN"

/-- How a template literal renders an optional string: the JS text undefined
stands in for a missing value. -/
def optValue (o : Option String) : String := o.getD "undefined"

/-- The conditional nodelist line of the template: present exactly when
config.gpuNode is truthy, which for a string means present and non-empty. -/
def nodelistLine (gpuNode : Option String) : String :=
  match gpuNode with
  | some n => if n = "" then "" else "#SBATCH --nodelist=" ++ n
  | none => ""

/-- The lines of the batch script template of generateScriptContent
(jobManager.ts lines 153-181), in order. -/
def scriptLines (config : JobConfig) : List String :=
  [ "#!/bin/bash",
    "#SBATCH --job-name=" ++ config.name,
    "#SBATCH --output=" ++ optValue config.outputPath,
    "#SBATCH --error=" ++ optValue config.errorPath,
    "#SBATCH --partition=" ++ config.partition,
    "#SBATCH --nodes=1",
    "#SBATCH --ntasks=1",
    "#SBATCH --gres=gpu:" ++ toString config.gpuCount,
    "#SBATCH --cpus-per-task=" ++ toString (config.cpuPerGpu * config.gpuCount),
    "#SBATCH --mem=" ++ renderMemTimes config.memoryPerGpu config.gpuCount ++ "G",
    "#SBATCH --time=" ++ config.timeLimit,
    nodelistLine config.gpuNode,
    "",
    "# Job information",
    "echo \"Job started at: $(date)\"",
    "echo \"Running on node: $(hostname)\"",
    "echo \"CUDA devices: $CUDA_VISIBLE_DEVICES\"",
    "",
    "# Activate conda environment (modify as needed)",
    "# source ~/miniconda3/etc/profile.d/conda.sh",
    "# conda activate your-env",
    "",
    "# Run the Python script",
    "python " ++ config.scriptPath,
    "",
    "echo \"Job completed at: $(date)\"",
    "" ]

/-- generateScriptContent: the template literal joined from its lines with
newlines, including the trailing newline of the template. -/
def generateScriptContent (config : JobConfig) : String :=
  String.intercalate "\n" (scriptLines config)

/-- C8: the generated script requests one node and one task, a GPU count of
gpuCount, a CPU count of cpuPerGpu times gpuCount, a memory total of
memoryPerGpu times gpuCount in gigabytes, the configured partition and time
limit, and carries the explicit nodelist pin exactly when a non-empty
target node is configured; with no target node the nodelist slot of the
template renders as the empty string, so no pin directive is emitted. -/
theorem script_resource_header (config : JobConfig) :
    "#SBATCH --nodes=1" ∈ scriptLines config
    ∧ "#SBATCH --ntasks=1" ∈ scriptLines config
    ∧ ("#SBATCH --gres=gpu:" ++ toString config.gpuCount) ∈ scriptLines config
    ∧ ("#SBATCH --cpus-per-task=" ++ toString (config.cpuPerGpu * config.gpuCount))
        ∈ scriptLines config
    ∧ (∀ m, jsParseIntNat config.memoryPerGpu = some m →
        ("#SBATCH --mem=" ++ toString (m * config.gpuCount) ++ "G") ∈ scriptLines config)
    ∧ ("#SBATCH --partition=" ++ config.partition) ∈ scriptLines config
    ∧ ("#SBATCH --time=" ++ config.timeLimit) ∈ scriptLines config
    ∧ (∀ n, config.gpuNode = some n → n ≠ "" →
        ("#SBATCH --nodelist=" ++ n) ∈ scriptLines config)
    ∧ (config.gpuNode = none ∨ config.gpuNode = some "" →
        nodelistLine config.gpuNode = "") := by
  refine ⟨?_, ?_, ?_, ?_, ?_, ?_, ?_, ?_, ?_⟩
  · simp [scriptLines]
  · simp [scriptLines]
  · simp [scriptLines]
  · simp [scriptLines]
  · intro m hm
    have : renderMemTimes config.memoryPerGpu config.gpuCount = toString (m * config.gpuCount) := by
      unfold renderMemTimes
      rw [hm]
    simp [scriptLines, ← this]
  · simp [scriptLines]
  · simp [scriptLines]
  · intro n hn hne
    have : nodelistLine config.gpuNode = "#SBATCH --nodelist=" ++ n := by
      rw [hn]
      simp [nodelistLine, hne]
    simp [scriptLines, ← this]
  · intro hcase
    rcases hcase with hc | hc <;> simp [nodelistLine, hc]

theorem script_resource_header_witness :
    (("#SBATCH --mem=" ++ toString (32 * 2) ++ "G")
      ∈ scriptLines (JobConfig.mk "job" 2 (some "aurora-g1") 8 "32G" "debug_ugrad"
          "1-00:00:00" "/data/train.py" none none))
    ∧ (("#SBATCH --nodelist=" ++ "aurora-g1")
      ∈ scriptLines (JobConfig.mk "job" 2 (some "aurora-g1") 8 "32G" "debug_ugrad"
          "1-00:00:00" "/data/train.py" none none)) :=
  ⟨(script_resource_header (JobConfig.mk "job" 2 (some "aurora-g1") 8 "32G" "debug_ugrad"
      "1-00:00:00" "/data/train.py" none none)).2.2.2.2.1 32 (by decide),
   (script_resource_header (JobConfig.mk "job" 2 (some "aurora-g1") 8 "32G" "debug_ugrad"
      "1-00:00:00" "/data/train.py" none none)).2.2.2.2.2.2.2.1 "aurora-g1" rfl (by decide)⟩

/-- The result record of an executed remote command as the SSH channel
reports it: stdout, stderr and the exit code. -/
structure CmdResult where
  stdout : String
  stderr : String
  code : Int
deriving DecidableEq, Repr

/-- A cached job entry (JobInfo interface of jobManager.ts, the Date fields
outside the model). -/
structure JobInfo where
  jobId : String
  name : String
  status : String
  gpuNode : String
  partition : String
  timeLimit : String
deriving DecidableEq, Repr

/-- The observable outcome of cancelJob: the cached job list afterwards, the
message shown, whether it was an error message, and whether a status
refresh ran. -/
structure CancelOutcome where
  jobs : List JobInfo
  message : String
  isError : Bool
  refreshed : Bool
deriving DecidableEq, Repr

/-- cancelJob (jobManager.ts lines 264-276): exit code zero shows a success
message and triggers refreshJobs, which replaces the cached list; any other
exit code shows an error message carrying the stderr text and leaves the
cached list untouched. -/
def cancelJob (runningJobs : List JobInfo) (jobId : String) (result : CmdResult)
    (refreshedJobs : List JobInfo) : CancelOutcome :=
  if result.code = 0 then
    { jobs := refreshedJobs
      message := "Job " ++ jobId ++ " cancelled successfully"
      isError := false
      refreshed := true }
  else
    { jobs := runningJobs
      message := "Failed to cancel job " ++ jobId ++ ": " ++ result.stderr
      isError := true
      refreshed := false }

/-- C9: when the cancel command exits non-zero, a visible error message is
shown whose text ends with the scheduler stderr text, the cached job list
is left exactly as it was, and no status refresh is triggered. -/
theorem cancel_failure_preserves_cache
    (runningJobs : List JobInfo) (jobId : String) (result : CmdResult)
    (refreshedJobs : List JobInfo) (h : result.code ≠ 0) :
    (cancelJob runningJobs jobId result refreshedJobs).jobs = runningJobs
    ∧ (cancelJob runningJobs jobId result refreshedJobs).isError = true
    ∧ (cancelJob runningJobs jobId result refreshedJobs).message
        = "Failed to cancel job " ++ jobId ++ ": " ++ result.stderr
    ∧ (∃ p, (cancelJob runningJobs jobId result refreshedJobs).message
        = p ++ result.stderr)
    ∧ (cancelJob runningJobs jobId result refreshedJobs).refreshed = false := by
  unfold cancelJob
  rw [if_neg h]
  exact ⟨rfl, rfl, rfl, ⟨"Failed to cancel job " ++ jobId ++ ": ", rfl⟩, rfl⟩

theorem cancel_failure_preserves_cache_witness :
    (cancelJob [JobInfo.mk "41" "train" "RUNNING" "aurora-g1" "debug_ugrad" "1-00:00:00"]
      "41" (CmdResult.mk "" "scancel: error: invalid job id" 1) []).jobs
    = [JobInfo.mk "41" "train" "RUNNING" "aurora-g1" "debug_ugrad" "1-00:00:00"] :=
  (cancel_failure_preserves_cache
    [JobInfo.mk "41" "train" "RUNNING" "aurora-g1" "debug_ugrad" "1-00:00:00"]
    "41" (CmdResult.mk "" "scancel: error: invalid job id" 1) [] (by decide)).1
